import Mathlib

/-!
Verification of the core logic of `mdk_to_vscode.py`: a tool that extracts
include paths and preprocessor defines from a Keil `.uvprojx` project file
(XML) and merges them into a VSCode `c_cpp_properties.json` document.

The embedding mirrors the Python source:
* `normalize_and_clean_path` — the nested path normalizer;
* `generate_vscode_config_from_file` — XML extraction over an `Xml` tree,
  with file/parse failures modelled by a `ParseResult` input;
* `ensure_vscode_c_cpp_properties` and `update_c_cpp_properties` — operations
  on the persisted JSON document, modelled by a `FileState`;
* JSON values are a `Json` inductive; Python dicts become association lists
  with first-key lookup and in-place update (`getField` / `setField`).
-/

set_option autoImplicit false

namespace MdkToVscode

/-! ## JSON values (Python dict / list / scalar model) -/

inductive Json where
  | null : Json
  | bool (b : Bool) : Json
  | num (n : Int) : Json
  | str (s : String) : Json
  | arr (xs : List Json) : Json
  | obj (fields : List (String × Json)) : Json

/-- Python `d.get(k)` on a dict: value of the first field named `k`, if any. -/
def getField : List (String × Json) → String → Option Json
  | [], _ => none
  | (k', v) :: rest, k => if k' = k then some v else getField rest k

/-- Python `d.get(k, dflt)` on a dict. -/
def getFieldD (fs : List (String × Json)) (k : String) (dflt : Json) : Json :=
  (getField fs k).getD dflt

/-- Python `d[k] = v` on a dict: update the first field named `k` in place,
or append a new field at the end when the key is absent. -/
def setField : List (String × Json) → String → Json → List (String × Json)
  | [], k, v => [(k, v)]
  | (k', v') :: rest, k, v =>
      if k' = k then (k, v) :: rest else (k', v') :: setField rest k v

/-! ## Path normalizer (`normalize_and_clean_path`, lines 74–81) -/

/-- The `while path.startswith('../'): path = path[3:]` loop, over the
character list of the string. -/
def stripLeadingParents : List Char → List Char
  | '.' :: '.' :: '/' :: rest => stripLeadingParents rest
  | l => l

/-- Python `path.replace('\\', '/')`: replace every backslash character with a
forward slash. -/
def replaceBackslashes (l : List Char) : List Char :=
  l.map (fun c => if c = '\\' then '/' else c)

/-- Source function `normalize_and_clean_path`: replace `\` with `/`, then repeatedly strip a
leading `../`. -/
def normalize_and_clean_path (path : String) : String :=
  ⟨stripLeadingParents (replaceBackslashes path.data)⟩

/-- Second definition, following the specification text word for word:
"Replace every backslash directory separator with a forward slash. While the
string starts with the literal three-character sequence \"../\", remove that
prefix." Stated with take/drop so the loop condition is literally "the first
three characters are `../`". Compared against `normalize_and_clean_path`. -/
def specStripParents (l : List Char) : List Char :=
  if l.take 3 = ['.', '.', '/'] then specStripParents (l.drop 3) else l
termination_by l.length
decreasing_by
  rename_i h
  have h3 : (l.take 3).length = 3 := by rw [h]; rfl
  rw [List.length_take] at h3
  simp only [List.length_drop]
  omega

/-- Specification-side normalizer (see `specStripParents`). -/
def spec_normalize_path (path : String) : String :=
  ⟨specStripParents (path.data.map (fun c => if c = '\\' then '/' else c))⟩

/-! ## Extraction (`generate_vscode_config_from_file`, lines 62–132) -/

/-- An XML element: tag, optional text, children (in document order). -/
inductive Xml where
  | elem (tag : String) (text : Option String) (children : List Xml)

def Xml.tag : Xml → String
  | .elem t _ _ => t

def Xml.text : Xml → Option String
  | .elem _ tx _ => tx

def Xml.children : Xml → List Xml
  | .elem _ _ cs => cs

mutual
/-- All proper descendants of an element, in document (preorder) order. -/
def Xml.descendants : Xml → List Xml
  | .elem _ _ cs => Xml.descendantsList cs

def Xml.descendantsList : List Xml → List Xml
  | [] => []
  | c :: cs => c :: (Xml.descendants c ++ Xml.descendantsList cs)
end

/-- ElementTree `node.find('.//tag')`: first proper descendant with the given tag. -/
def Xml.findDesc (x : Xml) (tag : String) : Option Xml :=
  x.descendants.find? (fun d => d.tag = tag)

/-- ElementTree `node.find('.//t1/t2')`: for each proper descendant tagged `t1` in
document order, its children tagged `t2` in order; first element of that
enumeration. -/
def Xml.findDescChild (x : Xml) (t1 t2 : String) : Option Xml :=
  (x.descendants.filter (fun d => d.tag = t1)).findSome?
    (fun d => d.children.find? (fun c => c.tag = t2))

/-- Python `str.split(sep)` with a one-character separator: split at every
occurrence, keeping empty pieces (`"".split(sep) == [""]`). -/
def splitOnChar (sep : Char) : List Char → List (List Char)
  | [] => [[]]
  | c :: rest =>
      if c = sep then [] :: splitOnChar sep rest
      else
        match splitOnChar sep rest with
        | [] => [[c]]
        | piece :: pieces => (c :: piece) :: pieces

/-- Python `str.split(sep)` on strings. -/
def pySplit (sep : Char) (s : String) : List String :=
  (splitOnChar sep s.data).map (fun l => ⟨l⟩)

/-- Python `str.strip()`: drop whitespace from both ends. -/
def pyStrip (s : String) : String :=
  ⟨((s.data.dropWhile Char.isWhitespace).reverse.dropWhile Char.isWhitespace).reverse⟩

/-- The comprehension `[normalize_and_clean_path(p.strip()) for p in text.split(';') if p.strip()]`. -/
def parseIncludePaths (text : String) : List String :=
  (pySplit ';' text).filterMap (fun p =>
    if pyStrip p = "" then none else some (normalize_and_clean_path (pyStrip p)))

/-- The comprehension `[d.strip() for d in text.split(',') if d.strip()]`. -/
def parseDefines (text : String) : List String :=
  (pySplit ',' text).filterMap (fun d =>
    if pyStrip d = "" then none else some (pyStrip d))

/-- The record `{"includePath": [...], "defines": [...]}` returned by
extraction. -/
structure ExtractedData where
  includePath : List String
  defines : List String
  deriving DecidableEq, Repr

/-- The `<IncludePath>` extraction step: starts at `[]`, overwritten when the
node is present and its text is truthy (not `None`, not `""`). -/
def extractIncludeList (cads : Xml) : List String :=
  match (cads.findDescChild "VariousControls" "IncludePath") with
  | some pn =>
      match pn.text with
      | some t => if t = "" then [] else parseIncludePaths t
      | none => []
  | none => []

/-- The `<Define>` extraction step. -/
def extractDefineList (cads : Xml) : List String :=
  match (cads.findDescChild "VariousControls" "Define") with
  | some dn =>
      match dn.text with
      | some t => if t = "" then [] else parseDefines t
      | none => []
  | none => []

/-- Outcome of `ET.parse(input_filepath)`: the file may be missing
(`FileNotFoundError`), malformed (`ET.ParseError`), fail some other way
(`Exception`), or parse to a root element. -/
inductive ParseResult where
  | notFound : ParseResult
  | parseError : ParseResult
  | otherError : ParseResult
  | ok (root : Xml) : ParseResult

/-- Source function `generate_vscode_config_from_file`: `None` on any file/parse error or when
no `<Cads>` node exists; otherwise the extracted lists (empty when a field is
absent or has empty text). The `config_name` argument is informational only. -/
def generate_vscode_config_from_file (input : ParseResult) (config_name : String) :
    Option ExtractedData :=
  match input, config_name with
  | .notFound, _ => none
  | .parseError, _ => none
  | .otherError, _ => none
  | .ok root, _ =>
      match root.findDesc "Cads" with
      | none => none
      | some cads =>
          some { includePath := extractIncludeList cads
                 defines := extractDefineList cads }

/-! ## The persisted JSON document -/

/-- State of the `c_cpp_properties.json` file: absent, present but not valid
JSON, or present with a parsed JSON content. -/
inductive FileState where
  | missing : FileState
  | invalid : FileState
  | content (j : Json) : FileState

/-! ## Ensure-exists (`ensure_vscode_c_cpp_properties`, lines 135–166) -/

def COMPILER_PATH : String :=
  "C:/Users/25799/Documents/gcc-arm-none-eabi-10.3-2021.10/bin/arm-none-eabi-gcc.exe"

/-- The pre-populated `"Default"` entry written when `create_default` is true. -/
def defaultEntry : List (String × Json) :=
  [("name", Json.str "Default"),
   ("intelliSenseMode", Json.str "linux-gcc-arm"),
   ("compilerPath", Json.str COMPILER_PATH),
   ("cStandard", Json.str "c99"),
   ("cppStandard", Json.str "c++11"),
   ("includePath", Json.arr []),
   ("defines", Json.arr [])]

/-- The template document written by `ensure_vscode_c_cpp_properties` when the
file does not exist. -/
def ensureTemplate (create_default : Bool) : Json :=
  Json.obj
    [("configurations",
      Json.arr (if create_default then [Json.obj defaultEntry] else [])),
     ("version", Json.num 4)]

/-- Source function `ensure_vscode_c_cpp_properties`: write the template only when the file is
absent; otherwise leave the file exactly as it is. -/
def ensure_vscode_c_cpp_properties (create_default : Bool) :
    FileState → FileState
  | .missing => .content (ensureTemplate create_default)
  | s => s

/-! ## Merge (`update_c_cpp_properties`, lines 169–221) -/

/-- The fresh entry created when no configuration named `config_name` exists. -/
def newConfigEntry (config_name : String) : List (String × Json) :=
  [("name", Json.str config_name),
   ("intelliSenseMode", Json.str "linux-gcc-arm"),
   ("compilerPath", Json.str "arm-none-eabi-gcc"),
   ("cStandard", Json.str "c99"),
   ("cppStandard", Json.str "c++11")]

/-- The pair of writes `target_config['includePath'] = ip; target_config['defines'] = df`. -/
def setEntry (fields : List (String × Json)) (ip df : Json) :
    List (String × Json) :=
  setField (setField fields "includePath" ip) "defines" df

/-- Python `config.get('name') == config_name`: true exactly when the
`name` field is present, is a string, and equals `config_name` (equality of a
non-string value with a string is `False`, not an error). -/
def nameMatches (fields : List (String × Json)) (config_name : String) : Bool :=
  match getField fields "name" with
  | some (Json.str s) => s = config_name
  | _ => false

/-- The find-or-create loop of `update_c_cpp_properties` over the
`configurations` list. `config.get('name')` on a non-dict entry raises
`AttributeError`, caught by the bare `except` with no write: `none` models
that abort. A dict entry whose `name` equals `config_name` is updated in
place; when the scan ends without a match a fresh entry is appended and then
updated. -/
def mergeIntoList (config_name : String) (ip df : Json) :
    List Json → Option (List Json)
  | [] => some [Json.obj (setEntry (newConfigEntry config_name) ip df)]
  | Json.obj fields :: rest =>
      if nameMatches fields config_name then
        some (Json.obj (setEntry fields ip df) :: rest)
      else
        (mergeIntoList config_name ip df rest).map (Json.obj fields :: ·)
  | _ :: _ => none

/-- Source function `update_c_cpp_properties(new_data, output_filepath, config_name)` as a
transformation of the file state. Error paths (missing file, invalid JSON,
content without a list-valued `"configurations"` key, non-dict entry hit by
the scan) leave the file untouched; otherwise the updated document is
written back. -/
def update_c_cpp_properties (new_data : List (String × Json))
    (file : FileState) (config_name : String) : FileState :=
  match file with
  | .missing => .missing
  | .invalid => .invalid
  | .content (Json.obj fields) =>
      match getField fields "configurations" with
      | some (Json.arr configs) =>
          match mergeIntoList config_name
              (getFieldD new_data "includePath" (Json.arr []))
              (getFieldD new_data "defines" (Json.arr [])) configs with
          | some configs2 =>
              .content (Json.obj (setField fields "configurations" (Json.arr configs2)))
          | none => .content (Json.obj fields)
      | _ => .content (Json.obj fields)
  | .content j => .content j

/-- The `new_data` dict produced by extraction, as passed to the merge. -/
def ExtractedData.toNewData (d : ExtractedData) : List (String × Json) :=
  [("includePath", Json.arr (d.includePath.map Json.str)),
   ("defines", Json.arr (d.defines.map Json.str))]

/-- Holds when `content` is a dict carrying a list-valued `"configurations"` key: the
shape the merge requires before it will write anything. -/
def hasConfigurationsList : Json → Bool
  | Json.obj fields =>
      match getField fields "configurations" with
      | some (Json.arr _) => true
      | _ => false
  | _ => false

/-- Entry is a dict whose `name` is NOT the string `n` (so the find loop
passes over it without error and without a match). -/
def isObjNotNamed (n : String) : Json → Bool
  | Json.obj fields => !nameMatches fields n
  | _ => false

/-! ## Concrete fixtures used to instantiate the theorems -/

/-- Entry `{name: "Foo", includePath: ["old"]}`. -/
def fooEntry : List (String × Json) :=
  [("name", Json.str "Foo"), ("includePath", Json.arr [Json.str "old"])]

/-- Entry `{name: "Bar", extra: 1}` (the spec's untouched-bystander entry). -/
def barEntry : List (String × Json) :=
  [("name", Json.str "Bar"), ("extra", Json.num 1)]

/-- A document `{configurations: [fooEntry, barEntry], version: 4}`. -/
def sampleFields : List (String × Json) :=
  [("configurations", Json.arr [Json.obj fooEntry, Json.obj barEntry]),
   ("version", Json.num 4)]

/-- A project tree containing the spec's end-to-end `<Cads>` example. -/
def sampleRoot : Xml :=
  .elem "Project" none
    [.elem "Targets" none
      [.elem "Cads" none
        [.elem "VariousControls" none
          [.elem "IncludePath" (some "..\\inc;..\\drv\\inc") [],
           .elem "Define" (some "USE_HAL,STM32F4") []]]]]

/-- The `<Cads>` node of `sampleRoot`. -/
def sampleCads : Xml :=
  .elem "Cads" none
    [.elem "VariousControls" none
      [.elem "IncludePath" (some "..\\inc;..\\drv\\inc") [],
       .elem "Define" (some "USE_HAL,STM32F4") []]]

/-! ## Lemmas about the path normalizer -/

theorem strip_of_take_ne (l : List Char) (h : l.take 3 ≠ ['.', '.', '/']) :
    stripLeadingParents l = l := by
  rw [stripLeadingParents.eq_def]
  split
  · simp at h
  · rfl

theorem strip_eq_spec (l : List Char) : stripLeadingParents l = specStripParents l := by
  induction l using specStripParents.induct with
  | case1 l h ih =>
      have hl : l = '.' :: '.' :: '/' :: l.drop 3 := by
        have h0 := List.take_append_drop 3 l
        rw [h] at h0
        exact h0.symm
      rw [specStripParents, if_pos h, ← ih]
      conv_lhs => rw [hl]
      rfl
  | case2 l h =>
      rw [specStripParents, if_neg h]
      exact strip_of_take_ne l h

/-- The strip loop only ever drops characters from the front: its result is a
suffix of its input. -/
theorem strip_suffix (l : List Char) : stripLeadingParents l <:+ l := by
  induction l using specStripParents.induct with
  | case1 l h ih =>
      have hl : l = '.' :: '.' :: '/' :: l.drop 3 := by
        have h0 := List.take_append_drop 3 l
        rw [h] at h0
        exact h0.symm
      have h1 : stripLeadingParents l = stripLeadingParents (l.drop 3) := by
        conv_lhs => rw [hl]
        rfl
      rw [h1]
      exact ih.trans (List.drop_suffix 3 l)
  | case2 l h =>
      rw [strip_of_take_ne l h]

/-- The strip loop runs to a fixpoint: its output never still begins with
`../`. -/
theorem strip_take_ne (l : List Char) :
    (stripLeadingParents l).take 3 ≠ ['.', '.', '/'] := by
  induction l using specStripParents.induct with
  | case1 l h ih =>
      have hl : l = '.' :: '.' :: '/' :: l.drop 3 := by
        have h0 := List.take_append_drop 3 l
        rw [h] at h0
        exact h0.symm
      have h1 : stripLeadingParents l = stripLeadingParents (l.drop 3) := by
        conv_lhs => rw [hl]
        rfl
      rw [h1]
      exact ih
  | case2 l h =>
      rw [strip_of_take_ne l h]
      exact h

theorem strip_idem (l : List Char) :
    stripLeadingParents (stripLeadingParents l) = stripLeadingParents l :=
  strip_of_take_ne _ (strip_take_ne l)

theorem replaceBackslashes_no_backslash (l : List Char) (c : Char)
    (hc : c ∈ replaceBackslashes l) : c ≠ '\\' := by
  unfold replaceBackslashes at hc
  rw [List.mem_map] at hc
  obtain ⟨a, -, ha⟩ := hc
  by_cases hb : a = '\\' <;> simp [hb] at ha <;> simp [← ha]
  intro hcontra
  rw [hcontra] at hb
  exact hb rfl

theorem replaceBackslashes_of_no_backslash (l : List Char)
    (h : ∀ c ∈ l, c ≠ '\\') : replaceBackslashes l = l := by
  unfold replaceBackslashes
  have h2 : ∀ c ∈ l, (fun c => if c = '\\' then '/' else c) c = id c := by
    intro c hc
    simp [h c hc]
  rw [List.map_congr_left h2, List.map_id]

/-! ## Lemmas about dict operations -/

theorem getField_setField_self (fs : List (String × Json)) (k : String) (v : Json) :
    getField (setField fs k v) k = some v := by
  induction fs with
  | nil => simp [setField, getField]
  | cons p rest ih =>
      obtain ⟨k', v'⟩ := p
      by_cases h : k' = k <;> simp [setField, getField, h, ih]

theorem getField_setField_ne (fs : List (String × Json)) (k k2 : String) (v : Json)
    (h : k2 ≠ k) : getField (setField fs k v) k2 = getField fs k2 := by
  have h' : ¬k = k2 := fun hh => h hh.symm
  induction fs with
  | nil => simp [setField, getField, h']
  | cons p rest ih =>
      obtain ⟨k', v'⟩ := p
      by_cases h1 : k' = k
      · subst h1
        simp [setField, getField, h']
      · by_cases h2 : k' = k2 <;> simp [setField, getField, h1, h2, h, ih]

theorem setField_setField_same (fs : List (String × Json)) (k : String) (v w : Json) :
    setField (setField fs k v) k w = setField fs k w := by
  induction fs with
  | nil => simp [setField]
  | cons p rest ih =>
      obtain ⟨k', v'⟩ := p
      by_cases h : k' = k <;> simp [setField, h, ih]

/-- Setting key `k1` again after an intervening set of a different key `k2`
collapses into a single set of `k1`. -/
theorem setField_set_set (fs : List (String × Json)) (k1 k2 : String)
    (v1 v2 w1 : Json) (h : k1 ≠ k2) :
    setField (setField (setField fs k1 v1) k2 v2) k1 w1 =
      setField (setField fs k1 w1) k2 v2 := by
  have h' : ¬k2 = k1 := fun hh => h hh.symm
  induction fs with
  | nil => simp [setField, h, h']
  | cons p rest ih =>
      obtain ⟨k', v'⟩ := p
      by_cases h1 : k' = k1
      · subst h1
        simp [setField, h, h']
      · by_cases h2 : k' = k2
        · subst h2
          simp [setField, h1, h', setField_setField_same]
        · simp [setField, h1, h2, ih]

theorem getField_setEntry_ne (fs : List (String × Json)) (ip df : Json) (k : String)
    (h1 : k ≠ "includePath") (h2 : k ≠ "defines") :
    getField (setEntry fs ip df) k = getField fs k := by
  unfold setEntry
  rw [getField_setField_ne _ _ _ _ h2, getField_setField_ne _ _ _ _ h1]

theorem nameMatches_setEntry (fs : List (String × Json)) (ip df : Json) (n : String) :
    nameMatches (setEntry fs ip df) n = nameMatches fs n := by
  unfold nameMatches
  rw [getField_setEntry_ne fs ip df "name" (by decide) (by decide)]

theorem setEntry_setEntry (fs : List (String × Json)) (ip df : Json) :
    setEntry (setEntry fs ip df) ip df = setEntry fs ip df := by
  unfold setEntry
  rw [setField_set_set _ "includePath" "defines" _ _ _ (by decide),
    setField_setField_same]

/-! ## Lemmas about the merge loop -/

theorem mergeIntoList_found (n : String) (ip df : Json) (pre post : List Json)
    (e : List (String × Json))
    (hpre : pre.all (isObjNotNamed n) = true) (he : nameMatches e n = true) :
    mergeIntoList n ip df (pre ++ Json.obj e :: post) =
      some (pre ++ Json.obj (setEntry e ip df) :: post) := by
  induction pre with
  | nil => simp [mergeIntoList, he]
  | cons c cs ih =>
      rw [List.all_cons, Bool.and_eq_true] at hpre
      obtain ⟨hc, hcs⟩ := hpre
      match c, hc with
      | Json.obj fs, hc =>
          rw [isObjNotNamed, Bool.not_eq_eq_eq_not, Bool.not_true] at hc
          simp [mergeIntoList, hc, ih hcs]

theorem mergeIntoList_notFound (n : String) (ip df : Json) (configs : List Json)
    (hall : configs.all (isObjNotNamed n) = true) :
    mergeIntoList n ip df configs =
      some (configs ++ [Json.obj (setEntry (newConfigEntry n) ip df)]) := by
  induction configs with
  | nil => simp [mergeIntoList]
  | cons c cs ih =>
      rw [List.all_cons, Bool.and_eq_true] at hall
      obtain ⟨hc, hcs⟩ := hall
      match c, hc with
      | Json.obj fs, hc =>
          rw [isObjNotNamed, Bool.not_eq_eq_eq_not, Bool.not_true] at hc
          simp [mergeIntoList, hc, ih hcs]

/-- Whatever the merge loop writes, running it again finds the same entry and
rewrites the same values: the written list is a fixpoint. -/
theorem mergeIntoList_idem (n : String) (ip df : Json) (xs ys : List Json)
    (h : mergeIntoList n ip df xs = some ys) :
    mergeIntoList n ip df ys = some ys := by
  induction xs generalizing ys with
  | nil =>
      rw [mergeIntoList] at h
      obtain rfl : [Json.obj (setEntry (newConfigEntry n) ip df)] = ys :=
        Option.some.inj h
      have hn : nameMatches (setEntry (newConfigEntry n) ip df) n = true := by
        rw [nameMatches_setEntry]
        simp [nameMatches, newConfigEntry, getField]
      simp [mergeIntoList, hn, setEntry_setEntry]
  | cons c cs ih =>
      match c with
      | Json.obj fs =>
          by_cases hm : nameMatches fs n = true
          · rw [mergeIntoList, if_pos hm] at h
            obtain rfl : Json.obj (setEntry fs ip df) :: cs = ys := Option.some.inj h
            have hn : nameMatches (setEntry fs ip df) n = true := by
              rw [nameMatches_setEntry]; exact hm
            simp [mergeIntoList, hn, setEntry_setEntry]
          · rw [mergeIntoList, if_neg hm] at h
            match hrec : mergeIntoList n ip df cs with
            | some rs =>
                rw [hrec] at h
                obtain rfl : Json.obj fs :: rs = ys := Option.some.inj h
                rw [mergeIntoList, if_neg hm, ih rs hrec]
                rfl
            | none => rw [hrec] at h; exact absurd h (by simp)
      | Json.null => simp [mergeIntoList] at h
      | Json.bool b => simp [mergeIntoList] at h
      | Json.num m => simp [mergeIntoList] at h
      | Json.str s => simp [mergeIntoList] at h
      | Json.arr l => simp [mergeIntoList] at h

/-! ## Lemmas about `update_c_cpp_properties` -/

/-- The merge on a well-shaped document is governed by the loop
`mergeIntoList` over the `configurations` list. -/
theorem update_content_eq (nd : List (String × Json)) (n : String)
    (fields : List (String × Json)) (configs : List Json)
    (hc : getField fields "configurations" = some (Json.arr configs)) :
    update_c_cpp_properties nd (.content (.obj fields)) n =
      match mergeIntoList n (getFieldD nd "includePath" (Json.arr []))
          (getFieldD nd "defines" (Json.arr [])) configs with
      | some cs2 =>
          .content (.obj (setField fields "configurations" (Json.arr cs2)))
      | none => .content (.obj fields) := by
  simp only [update_c_cpp_properties, hc]

/-- Applying the merge twice with the same data and name is the same as
applying it once, for every starting file state. -/
theorem update_idem (nd : List (String × Json)) (n : String) (file : FileState) :
    update_c_cpp_properties nd (update_c_cpp_properties nd file n) n =
      update_c_cpp_properties nd file n := by
  cases file with
  | missing => rfl
  | invalid => rfl
  | content j =>
      cases j with
      | obj fields =>
          rcases hg : getField fields "configurations" with _ | v
          · simp [update_c_cpp_properties, hg]
          · cases v with
            | arr cs =>
                rcases hm : mergeIntoList n (getFieldD nd "includePath" (Json.arr []))
                    (getFieldD nd "defines" (Json.arr [])) cs with _ | cs2
                · rw [update_content_eq nd n fields cs hg, hm]
                  rw [update_content_eq nd n fields cs hg, hm]
                · rw [update_content_eq nd n fields cs hg, hm]
                  show update_c_cpp_properties nd
                      (.content (.obj (setField fields "configurations" (Json.arr cs2)))) n = _
                  rw [update_content_eq nd n _ cs2
                      (getField_setField_self fields "configurations" (Json.arr cs2)),
                    mergeIntoList_idem n _ _ cs cs2 hm]
                  show FileState.content
                      (Json.obj (setField (setField fields "configurations" (Json.arr cs2))
                        "configurations" (Json.arr cs2))) = _
                  rw [setField_setField_same]
            | null => simp [update_c_cpp_properties, hg]
            | bool b => simp [update_c_cpp_properties, hg]
            | num m => simp [update_c_cpp_properties, hg]
            | str s => simp [update_c_cpp_properties, hg]
            | obj fs2 => simp [update_c_cpp_properties, hg]
      | null => rfl
      | bool b => rfl
      | num m => rfl
      | str s => rfl
      | arr l => rfl

/-! ## The claims -/

/-- C1: for every configuration document whose configurations list contains
an entry named `configName` (first match after dict entries that do not
match), the merge overwrites only that entry's `includePath` and `defines`;
every other field of that entry, every other entry of the list, and every
other top-level field of the document are unchanged in the persisted
result. -/
theorem C1_merge_frame (nd : List (String × Json)) (n : String)
    (fields : List (String × Json)) (pre post : List Json)
    (e : List (String × Json))
    (h1 : getField fields "configurations" = some (Json.arr (pre ++ Json.obj e :: post)))
    (h2 : pre.all (isObjNotNamed n) = true)
    (h3 : nameMatches e n = true) :
    update_c_cpp_properties nd (.content (.obj fields)) n =
      .content (.obj (setField fields "configurations"
        (Json.arr (pre ++ Json.obj (setEntry e
          (getFieldD nd "includePath" (Json.arr []))
          (getFieldD nd "defines" (Json.arr []))) :: post)))) ∧
    (∀ k, k ≠ "includePath" → k ≠ "defines" →
      getField (setEntry e (getFieldD nd "includePath" (Json.arr []))
        (getFieldD nd "defines" (Json.arr []))) k = getField e k) ∧
    (∀ k, k ≠ "configurations" →
      getField (setField fields "configurations"
        (Json.arr (pre ++ Json.obj (setEntry e
          (getFieldD nd "includePath" (Json.arr []))
          (getFieldD nd "defines" (Json.arr []))) :: post))) k = getField fields k) := by
  refine ⟨?_, ?_, ?_⟩
  · rw [update_content_eq nd n fields _ h1,
      mergeIntoList_found n _ _ pre post e h2 h3]
  · intro k hk1 hk2
    exact getField_setEntry_ne e _ _ k hk1 hk2
  · intro k hk
    exact getField_setField_ne fields _ k _ hk

/-- C1 witness: merging `includePath = ["inc"]` into `"Foo"` of the sample
document rewrites `Foo` and leaves `Bar` (with its `extra` field) and
`version` untouched. -/
theorem C1_merge_frame_witness :
    update_c_cpp_properties [("includePath", Json.arr [Json.str "inc"])]
        (.content (.obj sampleFields)) "Foo" =
      .content (.obj
        [("configurations", Json.arr
          [Json.obj [("name", Json.str "Foo"),
                     ("includePath", Json.arr [Json.str "inc"]),
                     ("defines", Json.arr [])],
           Json.obj barEntry]),
         ("version", Json.num 4)]) := by
  have h := C1_merge_frame [("includePath", Json.arr [Json.str "inc"])] "Foo"
    sampleFields [] [Json.obj barEntry] fooEntry rfl rfl rfl
  rw [h.1]
  rfl

/-- C2: the merge performs no write when the document file is missing, when
its content is not valid JSON, or when the content lacks a list-valued
`configurations` key: the file state is returned unchanged. -/
theorem C2_no_write_on_error (nd : List (String × Json)) (n : String) :
    update_c_cpp_properties nd .missing n = .missing ∧
    update_c_cpp_properties nd .invalid n = .invalid ∧
    ∀ j, hasConfigurationsList j = false →
      update_c_cpp_properties nd (.content j) n = .content j := by
  refine ⟨rfl, rfl, ?_⟩
  intro j hj
  cases j with
  | obj fields =>
      rcases hg : getField fields "configurations" with _ | v
      · simp [update_c_cpp_properties, hg]
      · cases v with
        | arr cs => simp [hasConfigurationsList, hg] at hj
        | null => simp [update_c_cpp_properties, hg]
        | bool b => simp [update_c_cpp_properties, hg]
        | num m => simp [update_c_cpp_properties, hg]
        | str s => simp [update_c_cpp_properties, hg]
        | obj fs2 => simp [update_c_cpp_properties, hg]
  | null => rfl
  | bool b => rfl
  | num m => rfl
  | str s => rfl
  | arr l => rfl

/-- C2 witness: a document whose content is the bare string `"x"` (no
configurations list) passes through the merge unchanged. -/
theorem C2_no_write_on_error_witness :
    update_c_cpp_properties [] (.content (Json.str "x")) "Foo" =
      .content (Json.str "x") :=
  (C2_no_write_on_error [] "Foo").2.2 (Json.str "x") rfl

/-- C5: on a document with a configurations list, the merge updates the first
entry (in list order) whose name equals `configName` when one exists; when no
entry matches, it appends exactly one new entry to the end of the list,
bearing `configName` and the default toolchain metadata, with its
`includePath` and `defines` set from the new data. -/
theorem C5_merge_find_or_append (nd : List (String × Json)) (n : String)
    (fields : List (String × Json)) (configs : List Json)
    (hc : getField fields "configurations" = some (Json.arr configs)) :
    (∀ pre e post, configs = pre ++ Json.obj e :: post →
      pre.all (isObjNotNamed n) = true → nameMatches e n = true →
      update_c_cpp_properties nd (.content (.obj fields)) n =
        .content (.obj (setField fields "configurations"
          (Json.arr (pre ++ Json.obj (setEntry e
            (getFieldD nd "includePath" (Json.arr []))
            (getFieldD nd "defines" (Json.arr []))) :: post))))) ∧
    (configs.all (isObjNotNamed n) = true →
      update_c_cpp_properties nd (.content (.obj fields)) n =
        .content (.obj (setField fields "configurations"
          (Json.arr (configs ++ [Json.obj (setEntry (newConfigEntry n)
            (getFieldD nd "includePath" (Json.arr []))
            (getFieldD nd "defines" (Json.arr [])))])))) ∧
      getField (setEntry (newConfigEntry n)
          (getFieldD nd "includePath" (Json.arr []))
          (getFieldD nd "defines" (Json.arr []))) "name" = some (Json.str n) ∧
      getField (setEntry (newConfigEntry n)
          (getFieldD nd "includePath" (Json.arr []))
          (getFieldD nd "defines" (Json.arr []))) "includePath" =
        some (getFieldD nd "includePath" (Json.arr [])) ∧
      getField (setEntry (newConfigEntry n)
          (getFieldD nd "includePath" (Json.arr []))
          (getFieldD nd "defines" (Json.arr []))) "defines" =
        some (getFieldD nd "defines" (Json.arr []))) := by
  constructor
  · intro pre e post hsplit h2 h3
    subst hsplit
    rw [update_content_eq nd n fields _ hc,
      mergeIntoList_found n _ _ pre post e h2 h3]
  · intro hall
    refine ⟨?_, ?_, ?_, ?_⟩
    · rw [update_content_eq nd n fields _ hc,
        mergeIntoList_notFound n _ _ configs hall]
    · rw [getField_setEntry_ne _ _ _ "name" (by decide) (by decide)]
      rfl
    · unfold setEntry
      rw [getField_setField_ne _ _ _ _ (by decide)]
      exact getField_setField_self _ _ _
    · exact getField_setField_self _ _ _

/-- C5 witness: merging under the unused name `"Baz"` appends one new entry
with the default toolchain metadata to the end of the sample document's
list. -/
theorem C5_merge_find_or_append_witness :
    update_c_cpp_properties [("includePath", Json.arr [Json.str "inc"])]
        (.content (.obj sampleFields)) "Baz" =
      .content (.obj
        [("configurations", Json.arr
          [Json.obj fooEntry, Json.obj barEntry,
           Json.obj [("name", Json.str "Baz"),
                     ("intelliSenseMode", Json.str "linux-gcc-arm"),
                     ("compilerPath", Json.str "arm-none-eabi-gcc"),
                     ("cStandard", Json.str "c99"),
                     ("cppStandard", Json.str "c++11"),
                     ("includePath", Json.arr [Json.str "inc"]),
                     ("defines", Json.arr [])]]),
         ("version", Json.num 4)]) := by
  have h := (C5_merge_find_or_append [("includePath", Json.arr [Json.str "inc"])]
    "Baz" sampleFields [Json.obj fooEntry, Json.obj barEntry] rfl).2 rfl
  rw [h.1]
  rfl

/-- C8: the merge is idempotent: applying it twice with the same extracted
build config and the same configuration name yields the same final document
as applying it once, whatever the starting file state. -/
theorem C8_merge_idempotent (d : ExtractedData) (n : String) (file : FileState) :
    update_c_cpp_properties d.toNewData
        (update_c_cpp_properties d.toNewData file n) n =
      update_c_cpp_properties d.toNewData file n :=
  update_idem d.toNewData n file

/-- C10: when the new-data record lacks the `includePath` key (respectively
the `defines` key), the merge sets the target entry's `includePath`
(respectively `defines`) to the empty list instead of failing or keeping the
entry's previous value. -/
theorem C10_missing_key_defaults (nd : List (String × Json)) (n : String)
    (fields : List (String × Json)) (pre post : List Json)
    (e : List (String × Json))
    (h1 : getField fields "configurations" = some (Json.arr (pre ++ Json.obj e :: post)))
    (h2 : pre.all (isObjNotNamed n) = true)
    (h3 : nameMatches e n = true) :
    (getField nd "includePath" = none →
      update_c_cpp_properties nd (.content (.obj fields)) n =
        .content (.obj (setField fields "configurations"
          (Json.arr (pre ++ Json.obj (setEntry e (Json.arr [])
            (getFieldD nd "defines" (Json.arr []))) :: post)))) ∧
      getField (setEntry e (Json.arr [])
        (getFieldD nd "defines" (Json.arr []))) "includePath" =
          some (Json.arr [])) ∧
    (getField nd "defines" = none →
      update_c_cpp_properties nd (.content (.obj fields)) n =
        .content (.obj (setField fields "configurations"
          (Json.arr (pre ++ Json.obj (setEntry e
            (getFieldD nd "includePath" (Json.arr []))
            (Json.arr [])) :: post)))) ∧
      getField (setEntry e (getFieldD nd "includePath" (Json.arr []))
        (Json.arr [])) "defines" = some (Json.arr [])) := by
  constructor
  · intro hmiss
    have hd : getFieldD nd "includePath" (Json.arr []) = Json.arr [] := by
      unfold getFieldD
      rw [hmiss]
      rfl
    constructor
    · rw [update_content_eq nd n fields _ h1,
        mergeIntoList_found n _ _ pre post e h2 h3, hd]
    · unfold setEntry
      rw [getField_setField_ne _ _ _ _ (by decide)]
      exact getField_setField_self _ _ _
  · intro hmiss
    have hd : getFieldD nd "defines" (Json.arr []) = Json.arr [] := by
      unfold getFieldD
      rw [hmiss]
      rfl
    constructor
    · rw [update_content_eq nd n fields _ h1,
        mergeIntoList_found n _ _ pre post e h2 h3, hd]
    · exact getField_setField_self _ _ _

/-- C10 witness: merging a record that carries only `defines` into `"Foo"`
overwrites Foo's previous `includePath` (`["old"]`) with the empty list. -/
theorem C10_missing_key_defaults_witness :
    update_c_cpp_properties [("defines", Json.arr [Json.str "D1"])]
        (.content (.obj sampleFields)) "Foo" =
      .content (.obj
        [("configurations", Json.arr
          [Json.obj [("name", Json.str "Foo"),
                     ("includePath", Json.arr []),
                     ("defines", Json.arr [Json.str "D1"])],
           Json.obj barEntry]),
         ("version", Json.num 4)]) := by
  have h := (C10_missing_key_defaults [("defines", Json.arr [Json.str "D1"])]
    "Foo" sampleFields [] [Json.obj barEntry] fooEntry rfl rfl rfl).1 rfl
  rw [h.1]
  rfl

/-- C6: ensure-exists writes the template document only when the file is
absent: one `"Default"` entry with placeholder metadata and empty
`includePath`/`defines` when `create_default` is true, an empty entry list
when it is false. An existing file is left untouched, so a second call is a
no-op whatever its `create_default` flag. -/
theorem C6_ensure_exists (b b2 : Bool) (s : FileState) :
    (s ≠ .missing → ensure_vscode_c_cpp_properties b s = s) ∧
    ensure_vscode_c_cpp_properties b .missing = .content (ensureTemplate b) ∧
    ensureTemplate true =
      Json.obj [("configurations", Json.arr [Json.obj defaultEntry]),
                ("version", Json.num 4)] ∧
    getField defaultEntry "name" = some (Json.str "Default") ∧
    getField defaultEntry "includePath" = some (Json.arr []) ∧
    getField defaultEntry "defines" = some (Json.arr []) ∧
    ensureTemplate false =
      Json.obj [("configurations", Json.arr []), ("version", Json.num 4)] ∧
    ensure_vscode_c_cpp_properties b2 (ensure_vscode_c_cpp_properties b s) =
      ensure_vscode_c_cpp_properties b s := by
  refine ⟨?_, rfl, rfl, rfl, rfl, rfl, rfl, ?_⟩
  · intro hs
    cases s with
    | missing => exact absurd rfl hs
    | invalid => rfl
    | content j => rfl
  · cases s with
    | missing => rfl
    | invalid => rfl
    | content j => rfl

/-- C6 witness: an existing (even malformed) file survives ensure-exists
unchanged, and ensure-exists after ensure-exists on a missing file changes
nothing more. -/
theorem C6_ensure_exists_witness :
    ensure_vscode_c_cpp_properties true (.content (Json.num 1)) =
        .content (Json.num 1) ∧
    ensure_vscode_c_cpp_properties false
        (ensure_vscode_c_cpp_properties true .missing) =
      ensure_vscode_c_cpp_properties true .missing :=
  ⟨(C6_ensure_exists true false (.content (Json.num 1))).1
      (fun h => FileState.noConfusion h),
   (C6_ensure_exists true false .missing).2.2.2.2.2.2.2⟩

/-- C3: the path normalizer is total (a Lean function) and returns exactly
the string obtained by first replacing every backslash with a forward slash
and then repeatedly removing the leading three-character sequence `../` —
and nothing else (the specification-side pipeline `spec_normalize_path`). -/
theorem C3_normalizer_matches_spec (s : String) :
    normalize_and_clean_path s = spec_normalize_path s := by
  unfold normalize_and_clean_path spec_normalize_path replaceBackslashes
  rw [strip_eq_spec]

/-- C9: path normalization is idempotent: normalizing an already-normalized
path returns it unchanged. -/
theorem C9_normalize_idempotent (s : String) :
    normalize_and_clean_path (normalize_and_clean_path s) =
      normalize_and_clean_path s := by
  show (⟨stripLeadingParents (replaceBackslashes
      (stripLeadingParents (replaceBackslashes s.data)))⟩ : String) = _
  have hsub : ∀ c ∈ stripLeadingParents (replaceBackslashes s.data), c ≠ '\\' := by
    intro c hc
    exact replaceBackslashes_no_backslash s.data c ((strip_suffix _).subset hc)
  rw [replaceBackslashes_of_no_backslash _ hsub, strip_idem]
  rfl

/-- The comprehension `[f(strip p) for p in pieces if strip p]` equals the
pipeline: strip every piece, discard the empties, map `f`, in order. -/
theorem filterMap_strip_spec (f : String → String) (l : List String) :
    l.filterMap (fun p => if pyStrip p = "" then none else some (f (pyStrip p))) =
      ((l.map pyStrip).filter (fun p => p ≠ "")).map f := by
  induction l with
  | nil => rfl
  | cons a l ih => by_cases h : pyStrip a = "" <;> simp [h, ih]

/-- C4: extraction splits `IncludePath` text on `;`, strips whitespace from
each piece, discards empty pieces, normalizes each survivor, in original
order; `Define` text is split on `,`, stripped, empties discarded, in
original order with no normalization. In particular `"A;B;C"` gives
`["A","B","C"]` and `"  X ,Y,  "` gives `["X","Y"]`. -/
theorem C4_extraction_split_order :
    (∀ text, parseIncludePaths text =
      (((pySplit ';' text).map pyStrip).filter (fun p => p ≠ "")).map
        normalize_and_clean_path) ∧
    (∀ text, parseDefines text =
      ((pySplit ',' text).map pyStrip).filter (fun d => d ≠ "")) ∧
    (∀ cads pn t, cads.findDescChild "VariousControls" "IncludePath" = some pn →
      pn.text = some t → t ≠ "" → extractIncludeList cads = parseIncludePaths t) ∧
    (∀ cads dn t, cads.findDescChild "VariousControls" "Define" = some dn →
      dn.text = some t → t ≠ "" → extractDefineList cads = parseDefines t) ∧
    parseIncludePaths "A;B;C" = ["A", "B", "C"] ∧
    parseDefines "  X ,Y,  " = ["X", "Y"] := by
  refine ⟨?_, ?_, ?_, ?_, by decide, by decide⟩
  · intro text
    exact filterMap_strip_spec normalize_and_clean_path (pySplit ';' text)
  · intro text
    have h := filterMap_strip_spec id (pySplit ',' text)
    simpa [parseDefines] using h
  · intro cads pn t h ht hne
    simp only [extractIncludeList, h, ht, if_neg hne]
  · intro cads dn t h ht hne
    simp only [extractDefineList, h, ht, if_neg hne]

/-- C4 witness: the spec's end-to-end `<Cads>` fixture extracts
`["inc", "drv/inc"]` from `..\inc;..\drv\inc`. -/
theorem C4_extraction_split_order_witness :
    extractIncludeList sampleCads = ["inc", "drv/inc"] := by
  have h := C4_extraction_split_order.2.2.1 sampleCads
    (Xml.elem "IncludePath" (some "..\\inc;..\\drv\\inc") [])
    "..\\inc;..\\drv\\inc" rfl rfl (by decide)
  rw [h]
  rfl

/-- C7: extraction returns `none` exactly when the project file is missing,
fails to parse as XML, fails with any other error, or has no `Cads`
descendant; otherwise it returns a record, and an absent `IncludePath` or
`Define` node — or one with empty/absent text — yields an empty list for
that field rather than a failure. -/
theorem C7_extraction_failure_modes :
    (∀ n, generate_vscode_config_from_file .notFound n = none) ∧
    (∀ n, generate_vscode_config_from_file .parseError n = none) ∧
    (∀ n, generate_vscode_config_from_file .otherError n = none) ∧
    (∀ root n, generate_vscode_config_from_file (.ok root) n = none ↔
      root.findDesc "Cads" = none) ∧
    (∀ root cads n, root.findDesc "Cads" = some cads →
      generate_vscode_config_from_file (.ok root) n =
        some { includePath := extractIncludeList cads
               defines := extractDefineList cads }) ∧
    (∀ cads, cads.findDescChild "VariousControls" "IncludePath" = none →
      extractIncludeList cads = []) ∧
    (∀ cads pn, cads.findDescChild "VariousControls" "IncludePath" = some pn →
      pn.text = none ∨ pn.text = some "" → extractIncludeList cads = []) ∧
    (∀ cads, cads.findDescChild "VariousControls" "Define" = none →
      extractDefineList cads = []) ∧
    (∀ cads dn, cads.findDescChild "VariousControls" "Define" = some dn →
      dn.text = none ∨ dn.text = some "" → extractDefineList cads = []) := by
  refine ⟨fun n => rfl, fun n => rfl, fun n => rfl, ?_, ?_, ?_, ?_, ?_, ?_⟩
  · intro root n
    constructor
    · intro h
      rcases hf : root.findDesc "Cads" with _ | c
      · rfl
      · simp [generate_vscode_config_from_file, hf] at h
    · intro h
      simp [generate_vscode_config_from_file, h]
  · intro root cads n h
    simp [generate_vscode_config_from_file, h]
  · intro cads h
    simp [extractIncludeList, h]
  · intro cads pn h ht
    rcases ht with ht | ht <;> simp [extractIncludeList, h, ht]
  · intro cads h
    simp [extractDefineList, h]
  · intro cads dn h ht
    rcases ht with ht | ht <;> simp [extractDefineList, h, ht]

/-- C7 witness: on the sample project tree, extraction succeeds and returns
the two split lists; the spec's end-to-end example. -/
theorem C7_extraction_failure_modes_witness :
    generate_vscode_config_from_file (.ok sampleRoot) "cfg" =
      some { includePath := ["inc", "drv/inc"]
             defines := ["USE_HAL", "STM32F4"] } := by
  have h := C7_extraction_failure_modes.2.2.2.2.1 sampleRoot sampleCads "cfg" rfl
  rw [h]
  rfl

end MdkToVscode
